import Mathlib

/-!
# Verification of the compliance-checker rule evaluation engine

A shallow embedding, in Lean 4, of the core of the questionnaire engine:
the condition evaluator and routing engine (`src/utils/routing.ts`),
answer validation and exclusivity handling (`src/utils/validation.ts`),
the wizard state store's back-navigation (`src/hooks/useWizardState.ts`),
hub-chain resolution (`src/hooks/useRouting.ts`), and outcome grouping
(`src/utils/outcomeEvaluator.ts`).

Conventions of the embedding:
* JavaScript objects used as string-keyed maps (`Flags`, `answers`) become
  functions `String → Option _`; `obj[k] = v` becomes pointwise update.
* A flag value is a boolean or a string (`FlagValue`); JavaScript strict
  equality `===` on such values is structural equality of `FlagValue`.
* Optional fields (`conditions?`, `set_flags?`, …) become `Option _`.
* Answer-option ids are decimal strings in the data (`"0"`, `"1"`, …);
  they are modelled by their numeric value, and `parseInt(opt.id) === ans`
  becomes numeric equality.
* Fields the evaluation engine never reads (display text, colors,
  metadata) are omitted from the structures.
-/

/-- A flag value: JavaScript `boolean | string`. -/
inductive FlagValue where
  | bool (b : Bool)
  | str (s : String)
deriving DecidableEq

/-- The flag store: a string-keyed map, absent keys read as `none`
(JavaScript `undefined`). -/
abbrev Flags := String → Option FlagValue

/-- `flag_equals` payload: `{ flag_name, value }`. -/
structure FlagEquals where
  flag_name : String
  value : FlagValue
deriving DecidableEq

/-- `RouteCondition` from `types.ts`: five optional predicate fields. -/
structure RouteCondition where
  answer_is : Option Nat := none
  is_this_exact_match_selected : Option (List Nat) := none
  if_any_answer_in : Option (List Nat) := none
  if_none_selected_in : Option (List Nat) := none
  flag_equals : Option FlagEquals := none
deriving DecidableEq

/-- `SetFlag` from `types.ts`. -/
structure SetFlag where
  flag_name : String
  value : FlagValue
  condition : Option (List RouteCondition) := none
deriving DecidableEq

/-- `Route` from `types.ts`. -/
structure Route where
  conditions : Option (List RouteCondition) := none
  go_to : String
  set_flags : Option (List SetFlag) := none
deriving DecidableEq

/-- Per-answer flag configuration (`AnswerFlagConfig`). -/
structure AnswerFlagConfig where
  set_flags : Option (List SetFlag) := none
deriving DecidableEq

/-- Decision-node type: `'radio' | 'checkbox' | 'hub'`. -/
inductive NodeType where
  | radio
  | checkbox
  | hub
deriving DecidableEq

/-- `DecisionNode` from `types.ts`; `answer_flags` is a string-keyed
object, modelled as an association list (keys unique in the data). -/
structure DecisionNode where
  question_id : String
  type : NodeType
  routing : List Route
  answer_flags : Option (List (String × AnswerFlagConfig)) := none
deriving DecidableEq

/-- The routing result `{ nextNodeId, flagsToSet }`. -/
structure RouteResult where
  nextNodeId : String
  flagsToSet : List SetFlag
deriving DecidableEq

/-!
## Condition evaluator and routing engine (`src/utils/routing.ts`)
-/

/-- `evaluateCondition` from `routing.ts`: a chain of early returns, one
per optional predicate field, in source order. -/
def evaluateCondition (condition : RouteCondition) (selectedAnswers : List Nat)
    (flags : Flags) : Bool :=
  match condition.answer_is with
  | some a => selectedAnswers.contains a
  | none =>
    match condition.is_this_exact_match_selected with
    | some required =>
      if selectedAnswers.length ≠ required.length then false
      else required.all (fun ans => selectedAnswers.contains ans)
    | none =>
      match condition.if_any_answer_in with
      | some l => l.any (fun ans => selectedAnswers.contains ans)
      | none =>
        match condition.if_none_selected_in with
        | some l => !(l.any (fun ans => selectedAnswers.contains ans))
        | none =>
          match condition.flag_equals with
          | some fe => decide (flags fe.flag_name = some fe.value)
          | none => true

/-- `evaluateAllConditions` from `routing.ts`: absent or empty condition
list is vacuously true, otherwise AND over the list. -/
def evaluateAllConditions (conditions : Option (List RouteCondition))
    (selectedAnswers : List Nat) (flags : Flags) : Bool :=
  match conditions with
  | none => true
  | some cs =>
    if cs.length = 0 then true
    else cs.all (fun cond => evaluateCondition cond selectedAnswers flags)

/-- The `for (const route of node.routing)` loop body of
`evaluateRouting`: first route whose conditions hold wins. -/
def routeLoop (routes : List Route) (selectedAnswers : List Nat)
    (flags : Flags) : Option RouteResult :=
  match routes with
  | [] => none
  | route :: rest =>
    if evaluateAllConditions route.conditions selectedAnswers flags then
      some ⟨route.go_to, route.set_flags.getD []⟩
    else routeLoop rest selectedAnswers flags

/-- `evaluateRouting` from `routing.ts`. -/
def evaluateRouting (node : DecisionNode) (selectedAnswers : List Nat)
    (flags : Flags) : Option RouteResult :=
  routeLoop node.routing selectedAnswers flags

/-- The `.every` callback over a `flagConfig.condition` list in
`getAnswerFlags`: only `flag_equals` entries are consulted, any other
entry yields `true`. -/
def answerFlagCondsMet (conds : List RouteCondition) (currentFlags : Flags) : Bool :=
  conds.all (fun cond =>
    match cond.flag_equals with
    | some fe => decide (currentFlags fe.flag_name = some fe.value)
    | none => true)

/-- `getAnswerFlags` from `routing.ts`: for each selected index, look up
its `answer_flags` entry (keyed by the index rendered as a string) and
keep each flag item whose (nonempty) condition list passes
`answerFlagCondsMet`. -/
def getAnswerFlags (node : DecisionNode) (selectedAnswers : List Nat)
    (currentFlags : Flags) : List SetFlag :=
  match node.answer_flags with
  | none => []
  | some af =>
    selectedAnswers.flatMap (fun answerIndex =>
      match (af.lookup (toString answerIndex)).bind (fun c => c.set_flags) with
      | none => []
      | some sfs =>
        (sfs.filter (fun flagConfig =>
          match flagConfig.condition with
          | some conds =>
            if 0 < conds.length then answerFlagCondsMet conds currentFlags
            else true
          | none => true)).map (fun flagConfig =>
            { flag_name := flagConfig.flag_name, value := flagConfig.value }))

/-- `applyFlags` from `routing.ts`: later entries overwrite earlier ones
with the same name. -/
def applyFlags (currentFlags : Flags) (flagsToSet : List SetFlag) : Flags :=
  flagsToSet.foldl
    (fun f flag => fun n => if n = flag.flag_name then some flag.value else f n)
    currentFlags

/-- Character-list version of JavaScript `String.prototype.startsWith`
restricted to what `includes` needs: does `s` start with `pat`? -/
def charsLeadWith : List Char → List Char → Bool
  | [], _ => true
  | _ :: _, [] => false
  | p :: ps, c :: cs => p == c && charsLeadWith ps cs

/-- Does `s` contain `pat` as a contiguous run of characters? -/
def charsContain (s pat : List Char) : Bool :=
  charsLeadWith pat s ||
    match s with
    | [] => false
    | _ :: cs => charsContain cs pat

/-- JavaScript `s.includes(pat)`. -/
def strIncludes (s pat : String) : Bool :=
  charsContain s.toList pat.toList

/-- `isHubNode` from `routing.ts`: declared type `hub`, or a question id
containing the substring `"hub"`. -/
def isHubNode (node : DecisionNode) : Bool :=
  decide (node.type = NodeType.hub) || strIncludes node.question_id "hub"

/-- `evaluateHubNode` from `routing.ts`: textually the same route loop as
`evaluateRouting`, run with an empty selection. -/
def evaluateHubNode (node : DecisionNode) (flags : Flags) : Option RouteResult :=
  routeLoop node.routing [] flags

/-!
## Hub resolution (`src/hooks/useRouting.ts`)
-/

/-- The body of one `while` iteration of `processHubNodes`, as a step
function: `none` means the loop stops at `cur` (terminal id, missing
node, non-hub node, or routing failure), `some r` means one more hop. -/
def hubStep (nodes : String → Option DecisionNode) (cur : String)
    (flags : Flags) : Option RouteResult :=
  if cur = "END" then none
  else
    match nodes cur with
    | none => none
    | some node =>
      if !isHubNode node then none
      else evaluateHubNode node flags

/-- The `while (iterations < maxIterations)` loop of `processHubNodes`,
with the remaining iteration budget as fuel.  Each hop merges the hop's
flags into the working copy and appends them to the accumulator. -/
def processHubLoop (nodes : String → Option DecisionNode) :
    Nat → String → Flags → List SetFlag → String × List SetFlag
  | 0, cur, _, acc => (cur, acc)
  | fuel + 1, cur, flags, acc =>
    match hubStep nodes cur flags with
    | none => (cur, acc)
    | some r =>
      processHubLoop nodes fuel r.nextNodeId (applyFlags flags r.flagsToSet)
        (acc ++ r.flagsToSet)

/-- `processHubNodes` from `useRouting.ts` (the decision tree's node map
passed explicitly): at most 50 iterations, starting from an empty flag
accumulator. -/
def processHubNodes (nodes : String → Option DecisionNode)
    (startNodeId : String) (flags : Flags) : String × List SetFlag :=
  processHubLoop nodes 50 startNodeId flags []

/-- Trace semantics for the hub chain, used to specify `processHubNodes`:
the state (current node, working flags, accumulated flags) after `n`
attempted hops, where a stopped chain stays put. -/
def hubState (nodes : String → Option DecisionNode) (start : String)
    (flags : Flags) : Nat → String × Flags × List SetFlag
  | 0 => (start, flags, [])
  | n + 1 =>
    let s := hubState nodes start flags n
    match hubStep nodes s.1 s.2.1 with
    | none => s
    | some r => (r.nextNodeId, applyFlags s.2.1 r.flagsToSet, s.2.2 ++ r.flagsToSet)

/-!
## Validation (`src/utils/validation.ts`)
-/

/-- Question type: `'single_choice' | 'multiple_choice'`. -/
inductive QuestionType where
  | single_choice
  | multiple_choice
deriving DecidableEq

/-- An answer option; `id` is the option's decimal-string id modelled
numerically, `exclusive` defaults to false (absent marker). -/
structure QuestionOption where
  id : Nat
  exclusive : Bool := false
deriving DecidableEq

/-- A question (fields the engine reads). -/
structure Question where
  type : QuestionType
  required : Bool
  options : List QuestionOption
deriving DecidableEq

/-- A validation rule; JavaScript truthiness makes an absent *or zero*
bound inactive, hence `Option Nat` checked for positivity at use sites. -/
structure ValidationRule where
  min_selections : Option Nat := none
  max_selections : Option Nat := none
deriving DecidableEq

/-- `ValidationResult`. -/
structure ValidationResult where
  isValid : Bool
  errors : List String
deriving DecidableEq

/-- `validateAnswer` from `validation.ts`, with the source's early
returns rendered as nested conditionals; `errors` accumulates step 3's
bound violations before step 4 runs. -/
def validateAnswer (question : Question) (selectedAnswers : List Nat)
    (validationRule : Option ValidationRule) : ValidationResult :=
  if question.required && decide (selectedAnswers.length = 0) then
    ⟨false, ["Please select at least one option"]⟩
  else if decide (question.type = QuestionType.single_choice) &&
      decide (1 < selectedAnswers.length) then
    ⟨false, ["Please select only one option"]⟩
  else
    let errors : List String :=
      match validationRule with
      | none => []
      | some rule =>
        (match rule.min_selections with
         | some m =>
           if 0 < m ∧ selectedAnswers.length < m then
             ["Please select at least " ++ toString m ++ " option(s)"]
           else []
         | none => []) ++
        (match rule.max_selections with
         | some m =>
           if 0 < m ∧ m < selectedAnswers.length then
             ["Please select at most " ++ toString m ++ " option(s)"]
           else []
         | none => [])
    let exclusiveOptions := question.options.filter (fun opt => opt.exclusive)
    let exclusiveSelected := selectedAnswers.any (fun ans =>
      exclusiveOptions.any (fun opt => decide (opt.id = ans)))
    if 0 < exclusiveOptions.length ∧
        (exclusiveSelected && decide (1 < selectedAnswers.length)) = true then
      ⟨false, errors ++ ["The selected option cannot be combined with other options"]⟩
    else
      ⟨decide (errors.length = 0), errors⟩

/-- `isExclusiveOption` from `validation.ts`: positional lookup with
optional chaining (`question.options[optionIndex]?.exclusive === true`). -/
def isExclusiveOption (question : Question) (optionIndex : Nat) : Bool :=
  match question.options.get? optionIndex with
  | some opt => opt.exclusive == true
  | none => false

/-- `handleSelectionWithExclusivity` from `validation.ts`.  The
multiple-choice select branch computes `exclusiveIndices` exactly as the
source does: map each option to its index or the sentinel `-1`, filter
the sentinel out. -/
def handleSelectionWithExclusivity (question : Question)
    (currentSelection : List Nat) (toggledOption : Nat) : List Nat :=
  let isExclusive := isExclusiveOption question toggledOption
  let wasSelected := currentSelection.contains toggledOption
  if question.type = QuestionType.single_choice then
    if wasSelected then [] else [toggledOption]
  else if wasSelected then
    currentSelection.filter (fun opt => opt != toggledOption)
  else if isExclusive then
    [toggledOption]
  else
    let exclusiveIndices : List Int :=
      (question.options.enum.map (fun p =>
        if p.2.exclusive then (p.1 : Int) else -1)).filter (fun idx => idx != -1)
    currentSelection.filter (fun opt => !(exclusiveIndices.contains (Int.ofNat opt)))
      ++ [toggledOption]

/-!
## Wizard state store (`src/hooks/useWizardState.ts`)
-/

/-- One undo snapshot (`HistoryEntry`). -/
structure HistoryEntry where
  nodeId : String
  answers : List Nat
  flags : Flags

/-- `WizardState` (fields the back-navigation logic touches). -/
structure WizardState where
  currentNodeId : String
  answers : String → Option (List Nat)
  flags : Flags
  history : List String
  isComplete : Bool

/-- `goBack` from `useWizardState.ts`, with the two state cells passed
and returned explicitly: returns the boolean result together with the
updated undo stack and wizard state.  `historyStack[length - 1]` is the
positional read of the source, `slice(0, -1)` is `take (length - 1)`. -/
def goBack (historyStack : List HistoryEntry) (s : WizardState) :
    Bool × List HistoryEntry × WizardState :=
  if historyStack.length = 0 then (false, historyStack, s)
  else
    match historyStack.get? (historyStack.length - 1) with
    | none => (false, historyStack, s)
    | some previousEntry =>
      (true,
       historyStack.take (historyStack.length - 1),
       { s with
           currentNodeId := previousEntry.nodeId,
           history := s.history.take (s.history.length - 1),
           isComplete := false,
           flags := previousEntry.flags })

/-!
## Outcome aggregation (`src/utils/outcomeEvaluator.ts`)
-/

/-- Outcome structure level: `'role' | 'risk_level' | 'obligation'`. -/
inductive StructureLevel where
  | role
  | risk_level
  | obligation
deriving DecidableEq

/-- An outcome (fields the grouping logic reads). -/
structure Outcome where
  id : String
  structure_level : StructureLevel
  priority_weight : Int
  is_empty : Bool := false
deriving DecidableEq

/-- `GroupedOutcomes`. -/
structure GroupedOutcomes where
  role : List Outcome
  risk_level : List Outcome
  obligation : List Outcome
deriving DecidableEq

/-- The comparator `(a, b) => b.priority_weight - a.priority_weight` of
the source's stable `Array.prototype.sort`, as a boolean `le`:
`a` may come before `b` iff `b.priority_weight ≤ a.priority_weight`. -/
def weightDescLE (a b : Outcome) : Bool :=
  decide (b.priority_weight ≤ a.priority_weight)

/-- `groupOutcomesByLevel` from `outcomeEvaluator.ts`: push every
outcome onto the bucket named by its structure level (a closed variant,
so the source's `if (grouped[level])` guard always passes), then sort
each bucket by priority weight descending with a stable sort. -/
def groupOutcomesByLevel (activeOutcomes : List Outcome) : GroupedOutcomes :=
  let grouped := activeOutcomes.foldl
    (fun (g : GroupedOutcomes) o =>
      match o.structure_level with
      | StructureLevel.role => { g with role := g.role ++ [o] }
      | StructureLevel.risk_level => { g with risk_level := g.risk_level ++ [o] }
      | StructureLevel.obligation => { g with obligation := g.obligation ++ [o] })
    (⟨[], [], []⟩ : GroupedOutcomes)
  { role := grouped.role.mergeSort weightDescLE,
    risk_level := grouped.risk_level.mergeSort weightDescLE,
    obligation := grouped.obligation.mergeSort weightDescLE }

/-!
## Helper lemmas
-/

/-- The route loop returns the first route (in list order) whose
conditions hold, mapped to its routing result. -/
lemma routeLoop_eq_find? (routes : List Route) (selectedAnswers : List Nat)
    (flags : Flags) :
    routeLoop routes selectedAnswers flags =
      (routes.find? (fun route =>
        evaluateAllConditions route.conditions selectedAnswers flags)).map
        (fun route => ⟨route.go_to, route.set_flags.getD []⟩) := by
  induction routes with
  | nil => rfl
  | cons route rest ih =>
    rw [routeLoop, List.find?_cons]
    cases h : evaluateAllConditions route.conditions selectedAnswers flags <;>
      simp [h, ih]

/-!
## C1 – C2, C9: condition evaluator and routing engine
-/

/-- C1: `evaluateRouting` is a pure function (hence deterministic) and
returns exactly the first route, in the node's declaration order, whose
conditions all evaluate to true — packaged with that route's attached
`set_flags` (defaulted to `[]` when absent) — and returns `none` exactly
when no route of the node matches. -/
theorem evaluateRouting_first_match (node : DecisionNode)
    (selectedAnswers : List Nat) (flags : Flags) :
    evaluateRouting node selectedAnswers flags =
      (node.routing.find? (fun route =>
        evaluateAllConditions route.conditions selectedAnswers flags)).map
        (fun route => ⟨route.go_to, route.set_flags.getD []⟩) ∧
    (evaluateRouting node selectedAnswers flags = none ↔
      ∀ route ∈ node.routing,
        evaluateAllConditions route.conditions selectedAnswers flags = false) := by
  refine ⟨routeLoop_eq_find? node.routing selectedAnswers flags, ?_⟩
  rw [evaluateRouting, routeLoop_eq_find? node.routing selectedAnswers flags]
  simp

/-- C9: `evaluateCondition` is an ordered chain of optional checks: the
first populated predicate field, in the fixed order `answer_is`,
exact-match, any-in, none-in, `flag_equals`, decides the result, and all
later fields (here universally quantified) are ignored; a condition with
no populated field is true. -/
theorem evaluateCondition_field_order (selectedAnswers : List Nat)
    (flags : Flags) (a : Nat) (S : List Nat) (e an ne : Option (List Nat))
    (fe : Option FlagEquals) (feq : FlagEquals) :
    (evaluateCondition ⟨some a, e, an, ne, fe⟩ selectedAnswers flags
      = selectedAnswers.contains a) ∧
    (evaluateCondition ⟨none, some S, an, ne, fe⟩ selectedAnswers flags
      = (decide (selectedAnswers.length = S.length) &&
         S.all (fun x => selectedAnswers.contains x))) ∧
    (evaluateCondition ⟨none, none, some S, ne, fe⟩ selectedAnswers flags
      = S.any (fun x => selectedAnswers.contains x)) ∧
    (evaluateCondition ⟨none, none, none, some S, fe⟩ selectedAnswers flags
      = !(S.any (fun x => selectedAnswers.contains x))) ∧
    (evaluateCondition ⟨none, none, none, none, some feq⟩ selectedAnswers flags
      = decide (flags feq.flag_name = some feq.value)) ∧
    (evaluateCondition ⟨none, none, none, none, none⟩ selectedAnswers flags
      = true) := by
  refine ⟨rfl, ?_, rfl, rfl, rfl, rfl⟩
  by_cases h : selectedAnswers.length = S.length <;>
    simp [evaluateCondition, h]

/-- C2: for a duplicate-free required set `S`, the exact-match condition
holds iff the selection and `S` have equal cardinality and identical
membership (order irrelevant); in particular `[0,2]` matches `[2,0]` but
not `[0,1,2]`.  The trailing predicate fields are quantified: they are
never consulted. -/
theorem exactMatch_set_semantics (required selectedAnswers : List Nat)
    (flags : Flags) (an ne : Option (List Nat)) (fe : Option FlagEquals)
    (hnd : required.Nodup) :
    (evaluateCondition ⟨none, some required, an, ne, fe⟩ selectedAnswers flags
        = true ↔
      selectedAnswers.length = required.length ∧
        ∀ x : Nat, x ∈ selectedAnswers ↔ x ∈ required) ∧
    evaluateCondition ⟨none, some [0, 2], an, ne, fe⟩ [2, 0] flags = true ∧
    evaluateCondition ⟨none, some [0, 2], an, ne, fe⟩ [0, 1, 2] flags = false := by
  refine ⟨?_, rfl, rfl⟩
  show (if selectedAnswers.length ≠ required.length then false
        else required.all (fun ans => selectedAnswers.contains ans)) = true ↔ _
  by_cases hl : selectedAnswers.length = required.length
  · rw [if_neg (not_not_intro hl), List.all_eq_true]
    constructor
    · intro hsub
      have hsub2 : ∀ x ∈ required, x ∈ selectedAnswers := by
        intro x hx
        simpa using hsub x hx
      refine ⟨hl, fun x => ⟨fun hx => ?_, fun hx => hsub2 x hx⟩⟩
      have hfs : required.toFinset ⊆ selectedAnswers.toFinset := fun y hy =>
        List.mem_toFinset.mpr (hsub2 y (List.mem_toFinset.mp hy))
      have hcards : selectedAnswers.toFinset.card ≤ required.toFinset.card := by
        calc selectedAnswers.toFinset.card
            ≤ selectedAnswers.length := List.toFinset_card_le _
          _ = required.length := hl
          _ = required.toFinset.card := (List.toFinset_card_of_nodup hnd).symm
      have heq : required.toFinset = selectedAnswers.toFinset :=
        Finset.eq_of_subset_of_card_le hfs hcards
      have hxe : x ∈ selectedAnswers.toFinset := List.mem_toFinset.mpr hx
      rw [← heq] at hxe
      exact List.mem_toFinset.mp hxe
    · rintro ⟨-, hm⟩ x hx
      simpa using (hm x).mpr hx
  · rw [if_pos hl]
    simp only [Bool.false_eq_true, false_iff]
    rintro ⟨h1, -⟩
    exact hl h1

/-- Witness for C2: the Nodup hypothesis and the conclusion hold at
`required = [0,2]`, `selection = [2,0]`, empty flags. -/
theorem exactMatch_set_semantics_witness :
    ([0, 2] : List Nat).Nodup ∧
    ((evaluateCondition ⟨none, some [0, 2], none, none, none⟩ [2, 0]
        (fun _ => none) = true ↔
      ([2, 0] : List Nat).length = ([0, 2] : List Nat).length ∧
        ∀ x : Nat, x ∈ ([2, 0] : List Nat) ↔ x ∈ ([0, 2] : List Nat)) ∧
     evaluateCondition ⟨none, some [0, 2], none, none, none⟩ [2, 0]
        (fun _ => none) = true ∧
     evaluateCondition ⟨none, some [0, 2], none, none, none⟩ [0, 1, 2]
        (fun _ => none) = false) :=
  ⟨by decide,
   exactMatch_set_semantics [0, 2] [2, 0] (fun _ => none) none none none (by decide)⟩

/-!
## C3: validation order and error accumulation
-/

/-- The step-3 bound-violation errors of `validateAnswer` (the messages
accumulated between the two fatal single-error checks and the
exclusivity check). -/
def ruleBoundErrors (validationRule : Option ValidationRule)
    (selectedAnswers : List Nat) : List String :=
  match validationRule with
  | none => []
  | some rule =>
    (match rule.min_selections with
     | some m =>
       if 0 < m ∧ selectedAnswers.length < m then
         ["Please select at least " ++ toString m ++ " option(s)"]
       else []
     | none => []) ++
    (match rule.max_selections with
     | some m =>
       if 0 < m ∧ m < selectedAnswers.length then
         ["Please select at most " ++ toString m ++ " option(s)"]
       else []
     | none => [])

/-- The source's exclusivity trigger (some exclusive option's id is
selected, and the exclusive-option list is nonempty) is equivalent to
the existence of a selected exclusive option id. -/
lemma exclusive_cond_iff (question : Question) (sel : List Nat) :
    (0 < (question.options.filter (fun opt => opt.exclusive)).length ∧
      (sel.any (fun ans => (question.options.filter (fun opt => opt.exclusive)).any
        (fun opt => decide (opt.id = ans))) && decide (1 < sel.length)) = true)
    ↔ ((∃ a ∈ sel, ∃ opt ∈ question.options, opt.exclusive = true ∧ opt.id = a) ∧
        1 < sel.length) := by
  simp only [Bool.and_eq_true, List.any_eq_true, decide_eq_true_eq, List.mem_filter]
  constructor
  · rintro ⟨-, ⟨a, ha, opt, ⟨hopt, hex⟩, hid⟩, hlen⟩
    exact ⟨⟨a, ha, opt, hopt, hex, hid⟩, hlen⟩
  · rintro ⟨⟨a, ha, opt, hopt, hex, hid⟩, hlen⟩
    refine ⟨?_, ⟨a, ha, opt, ⟨hopt, hex⟩, hid⟩, hlen⟩
    exact List.length_pos.mpr (List.ne_nil_of_mem (List.mem_filter.mpr ⟨hopt, hex⟩))

/-- C3 (amended): `validateAnswer` checks in order — (1) required and
empty, and (2) single-choice with more than one selection, each stop
immediately with a single fatal error; (3) min/max bound violations
accumulate non-fatal errors; (4) a selected exclusive index with more
than one selection returns immediately with `isValid = false` and the
error list equal to step 3's accumulated errors *followed by* the
exclusivity error (appended, not overridden); the result is valid iff no
errors were produced. -/
theorem validateAnswer_spec (question : Question) (selectedAnswers : List Nat)
    (validationRule : Option ValidationRule) :
    ((validateAnswer question selectedAnswers validationRule).isValid = true ↔
      (validateAnswer question selectedAnswers validationRule).errors = []) ∧
    validateAnswer question selectedAnswers validationRule =
      (if question.required = true ∧ selectedAnswers = [] then
        ⟨false, ["Please select at least one option"]⟩
      else if question.type = QuestionType.single_choice ∧
          1 < selectedAnswers.length then
        ⟨false, ["Please select only one option"]⟩
      else if (∃ a ∈ selectedAnswers, ∃ opt ∈ question.options,
          opt.exclusive = true ∧ opt.id = a) ∧ 1 < selectedAnswers.length then
        ⟨false, ruleBoundErrors validationRule selectedAnswers ++
          ["The selected option cannot be combined with other options"]⟩
      else
        ⟨decide (ruleBoundErrors validationRule selectedAnswers = []),
         ruleBoundErrors validationRule selectedAnswers⟩) := by
  have hmain : validateAnswer question selectedAnswers validationRule =
      (if question.required = true ∧ selectedAnswers = [] then
        ⟨false, ["Please select at least one option"]⟩
      else if question.type = QuestionType.single_choice ∧
          1 < selectedAnswers.length then
        ⟨false, ["Please select only one option"]⟩
      else if (∃ a ∈ selectedAnswers, ∃ opt ∈ question.options,
          opt.exclusive = true ∧ opt.id = a) ∧ 1 < selectedAnswers.length then
        ⟨false, ruleBoundErrors validationRule selectedAnswers ++
          ["The selected option cannot be combined with other options"]⟩
      else
        ⟨decide (ruleBoundErrors validationRule selectedAnswers = []),
         ruleBoundErrors validationRule selectedAnswers⟩) := by
    simp only [validateAnswer]
    by_cases h1 : question.required = true ∧ selectedAnswers = []
    · rw [if_pos (show (question.required &&
          decide (selectedAnswers.length = 0)) = true by
            simp [h1.1, h1.2]), if_pos h1]
    · rw [if_neg (show ¬ (question.required &&
          decide (selectedAnswers.length = 0)) = true by
            simp only [Bool.and_eq_true, decide_eq_true_eq, List.length_eq_zero]
            exact h1), if_neg h1]
      by_cases h2 : question.type = QuestionType.single_choice ∧
          1 < selectedAnswers.length
      · rw [if_pos (show (decide (question.type = QuestionType.single_choice) &&
            decide (1 < selectedAnswers.length)) = true by
              simp [h2.1, h2.2]), if_pos h2]
      · rw [if_neg (show ¬ (decide (question.type = QuestionType.single_choice) &&
            decide (1 < selectedAnswers.length)) = true by
              simp only [Bool.and_eq_true, decide_eq_true_eq]
              exact h2), if_neg h2]
        by_cases h3 : (∃ a ∈ selectedAnswers, ∃ opt ∈ question.options,
            opt.exclusive = true ∧ opt.id = a) ∧ 1 < selectedAnswers.length
        · rw [if_pos ((exclusive_cond_iff question selectedAnswers).mpr h3),
            if_pos h3, ruleBoundErrors.eq_def]
        · rw [if_neg
            (fun hc => h3 ((exclusive_cond_iff question selectedAnswers).mp hc)),
            if_neg h3, ruleBoundErrors.eq_def]
          simp [List.length_eq_zero]
  refine ⟨?_, hmain⟩
  rw [hmain]
  split_ifs with h1 h2 h3 <;> simp

/-- Counterexample to C3 as stated: with a rule `min_selections = 3`,
two selected options one of which is exclusive, the exclusivity check
returns immediately but with *two* errors — the accumulated step-3 bound
error followed by the exclusivity error — not a single overriding error. -/
theorem validateAnswer_exclusivity_keeps_bound_error :
    (validateAnswer
        ⟨QuestionType.multiple_choice, true, [⟨0, false⟩, ⟨1, false⟩, ⟨2, true⟩]⟩
        [0, 2] (some ⟨some 3, none⟩)).errors =
      ["Please select at least 3 option(s)",
       "The selected option cannot be combined with other options"] ∧
    (validateAnswer
        ⟨QuestionType.multiple_choice, true, [⟨0, false⟩, ⟨1, false⟩, ⟨2, true⟩]⟩
        [0, 2] (some ⟨some 3, none⟩)).errors.length ≠ 1 := by
  constructor
  · rfl
  · decide

/-!
## C4: toggle with exclusivity
-/

/-- The source's `exclusiveIndices` list (indices mapped to `-1` unless
exclusive, sentinel filtered out) contains an index iff that index
denotes an exclusive option. -/
lemma contains_exclusiveIndices (question : Question) (o : Nat) :
    ((question.options.enum.map (fun p =>
        if p.2.exclusive then (p.1 : Int) else -1)).filter
      (fun idx => idx != -1)).contains (Int.ofNat o)
    = isExclusiveOption question o := by
  rw [Bool.eq_iff_iff]
  rw [List.contains_iff_exists_mem_beq]
  simp only [List.mem_filter, List.mem_map, beq_iff_eq, bne_iff_ne]
  constructor
  · rintro ⟨b, ⟨⟨p, hp, hpe⟩, hne⟩, hbo⟩
    subst hbo
    by_cases hex : p.2.exclusive
    · rw [if_pos hex] at hpe
      have hfst : p.1 = o := by
        simp only [Int.ofNat_eq_coe] at hpe
        omega
      have := List.mk_mem_enum_iff_getElem?.mp (hfst ▸ (Prod.mk.eta (p := p) ▸ hp))
      rw [isExclusiveOption]
      rw [List.get?_eq_getElem?, this]
      simp [hex]
    · rw [if_neg hex] at hpe
      exact absurd hpe.symm hne
  · intro hex
    rw [isExclusiveOption] at hex
    rw [List.get?_eq_getElem?] at hex
    cases hopt : question.options[o]? with
    | none => rw [hopt] at hex; simp at hex
    | some opt =>
      rw [hopt] at hex
      simp only [beq_iff_eq] at hex
      refine ⟨Int.ofNat o, ⟨⟨(o, opt), List.mk_mem_enum_iff_getElem?.mpr hopt, ?_⟩, ?_⟩, rfl⟩
      · simp [hex]
      · simp

/-- C4: `handleSelectionWithExclusivity` — for single-choice questions,
toggling a selected index clears the selection and any other index
replaces it; for multiple-choice questions, toggling a selected index
removes it, toggling an exclusive index yields `[toggledOption]` alone,
and toggling a non-exclusive index removes all exclusive indices from
the current selection and appends the toggled index. -/
theorem handleSelection_cases (question : Question)
    (currentSelection : List Nat) (toggledOption : Nat) :
    handleSelectionWithExclusivity question currentSelection toggledOption =
      if question.type = QuestionType.single_choice then
        (if toggledOption ∈ currentSelection then [] else [toggledOption])
      else if toggledOption ∈ currentSelection then
        currentSelection.filter (fun o => decide (o ≠ toggledOption))
      else if isExclusiveOption question toggledOption = true then
        [toggledOption]
      else
        currentSelection.filter (fun o => !isExclusiveOption question o)
          ++ [toggledOption] := by
  simp only [handleSelectionWithExclusivity]
  by_cases hty : question.type = QuestionType.single_choice
  · rw [if_pos hty, if_pos hty]
    by_cases hmem : toggledOption ∈ currentSelection
    · rw [if_pos (by simpa using hmem), if_pos hmem]
    · rw [if_neg (by simpa using hmem), if_neg hmem]
  · rw [if_neg hty, if_neg hty]
    by_cases hmem : toggledOption ∈ currentSelection
    · rw [if_pos (by simpa using hmem), if_pos hmem]
      apply List.filter_congr
      intro x _
      by_cases h : x = toggledOption <;> simp [h]
    · rw [if_neg (by simpa using hmem), if_neg hmem]
      by_cases hex : isExclusiveOption question toggledOption = true
      · rw [if_pos hex, if_pos hex]
      · rw [if_neg (by simpa using hex), if_neg hex]
        congr 1
        apply List.filter_congr
        intro x _
        rw [contains_exclusiveIndices]

/-!
## C5: back navigation
-/

/-- C5: when the undo stack is empty `goBack` returns `false` and leaves
both the stack and the wizard state entirely unchanged; otherwise it
pops the most recent snapshot, restores the current node id and the
flags to that snapshot's values, truncates the visited-node history by
exactly one entry (the stack and history are pushed in lockstep, hence
the length hypothesis), clears the completion flag, and returns `true`. -/
theorem goBack_spec (historyStack : List HistoryEntry) (s : WizardState)
    (hsync : historyStack.length = s.history.length) :
    goBack historyStack s =
      (match historyStack.getLast? with
       | none => (false, historyStack, s)
       | some prev =>
         (true, historyStack.dropLast,
          { currentNodeId := prev.nodeId,
            answers := s.answers,
            flags := prev.flags,
            history := s.history.dropLast,
            isComplete := false })) ∧
    s.history.length =
      (goBack historyStack s).2.2.history.length +
        (if historyStack.getLast?.isSome then 1 else 0) := by
  have hmain : goBack historyStack s =
      (match historyStack.getLast? with
       | none => (false, historyStack, s)
       | some prev =>
         (true, historyStack.dropLast,
          { currentNodeId := prev.nodeId,
            answers := s.answers,
            flags := prev.flags,
            history := s.history.dropLast,
            isComplete := false })) := by
    rw [goBack]
    by_cases hlen : historyStack.length = 0
    · rw [if_pos hlen]
      have : historyStack = [] := List.length_eq_zero.mp hlen
      subst this
      rfl
    · rw [if_neg hlen]
      rw [List.get?_eq_getElem?, ← List.getLast?_eq_getElem?,
        ← List.dropLast_eq_take, ← List.dropLast_eq_take]
  refine ⟨hmain, ?_⟩
  rw [hmain]
  cases hg : historyStack.getLast? with
  | none => simp
  | some prev =>
    have hne : historyStack ≠ [] := by
      intro he
      subst he
      simp at hg
    have hpos : 0 < historyStack.length := List.length_pos.mpr hne
    rw [if_pos (show (some prev).isSome = true from rfl)]
    simp only [List.length_dropLast]
    omega

/-- A one-entry undo stack for the `goBack` witness. -/
def stackW : List HistoryEntry := [⟨"n1", [0], fun _ => none⟩]

/-- A wizard state with one visited node for the `goBack` witness. -/
def sW : WizardState :=
  ⟨"n2", fun _ => none, fun n => if n = "x" then some (FlagValue.bool true) else none,
   ["n1"], true⟩

/-- Witness for C5 at a one-snapshot stack and matching history. -/
theorem goBack_spec_witness :
    stackW.length = sW.history.length ∧
    (goBack stackW sW =
      (match stackW.getLast? with
       | none => (false, stackW, sW)
       | some prev =>
         (true, stackW.dropLast,
          { currentNodeId := prev.nodeId,
            answers := sW.answers,
            flags := prev.flags,
            history := sW.history.dropLast,
            isComplete := false })) ∧
     sW.history.length =
       (goBack stackW sW).2.2.history.length +
         (if stackW.getLast?.isSome then 1 else 0)) :=
  ⟨rfl, goBack_spec stackW sW rfl⟩

/-!
## C10: per-answer flag guards
-/

/-- The guard on one nested condition entry of an `answer_flags` item:
an entry with no `flag_equals` field is satisfied, a `flag_equals` entry
must match the current flags. -/
def flagGuardHolds (currentFlags : Flags) (cond : RouteCondition) : Bool :=
  match cond.flag_equals with
  | some fe => decide (currentFlags fe.flag_name = some fe.value)
  | none => true

/-- C10: `getAnswerFlags` filters each per-answer flag item solely by
`flagGuardHolds` over its nested condition entries: entries lacking a
`flag_equals` field count as satisfied (so a flag guarded only by
non-flag-equality conditions is always applied), and only a failing
`flag_equals` entry can withhold a flag. -/
theorem getAnswerFlags_guard_spec (node : DecisionNode)
    (selectedAnswers : List Nat) (currentFlags : Flags) :
    getAnswerFlags node selectedAnswers currentFlags =
      selectedAnswers.flatMap (fun i =>
        (((((node.answer_flags.getD []).lookup (toString i)).bind
            (fun c => c.set_flags)).getD []).filter
          (fun fc => (fc.condition.getD []).all (flagGuardHolds currentFlags))).map
          (fun fc => { flag_name := fc.flag_name, value := fc.value })) := by
  cases haf : node.answer_flags with
  | none => simp [getAnswerFlags, haf]
  | some af =>
    simp only [getAnswerFlags, haf, Option.getD_some]
    congr 1
    funext i
    cases hlk : (af.lookup (toString i)).bind (fun c => c.set_flags) with
    | none => simp
    | some sfs =>
      simp only [Option.getD_some]
      congr 1
      apply List.filter_congr
      intro fc _
      cases hc : fc.condition with
      | none => rfl
      | some conds =>
        simp only [Option.getD_some]
        by_cases h0 : 0 < conds.length
        · rw [if_pos h0]
          rfl
        · have : conds = [] := by
            cases conds with
            | nil => rfl
            | cons c cs => exact absurd (by simp) h0
          subst this
          rw [if_neg h0]
          rfl

/-!
## C6: outcome grouping
-/

/-- The push loop of `groupOutcomesByLevel` appends, to each bucket of
the accumulator, exactly the outcomes of the input with that structure
level, in input order. -/
lemma groupFold_eq (os : List Outcome) (g : GroupedOutcomes) :
    os.foldl
      (fun (g : GroupedOutcomes) o =>
        match o.structure_level with
        | StructureLevel.role => { g with role := g.role ++ [o] }
        | StructureLevel.risk_level => { g with risk_level := g.risk_level ++ [o] }
        | StructureLevel.obligation => { g with obligation := g.obligation ++ [o] })
      g =
    ⟨g.role ++ os.filter (fun o => decide (o.structure_level = StructureLevel.role)),
     g.risk_level ++
       os.filter (fun o => decide (o.structure_level = StructureLevel.risk_level)),
     g.obligation ++
       os.filter (fun o => decide (o.structure_level = StructureLevel.obligation))⟩ := by
  induction os generalizing g with
  | nil => simp
  | cons o rest ih =>
    rw [List.foldl_cons]
    cases hl : o.structure_level <;>
      simp [ih, hl, List.filter_cons]

/-- `weightDescLE` is transitive. -/
lemma weightDescLE_trans (a b c : Outcome) :
    weightDescLE a b → weightDescLE b c → weightDescLE a c := by
  simp only [weightDescLE, decide_eq_true_eq]
  omega

/-- `weightDescLE` is total. -/
lemma weightDescLE_total (a b : Outcome) :
    weightDescLE a b || weightDescLE b a := by
  simp only [weightDescLE, Bool.or_eq_true, decide_eq_true_eq]
  omega

/-- Sorting with `weightDescLE` sorts by priority weight descending. -/
lemma mergeSort_weightDesc_pairwise (l : List Outcome) :
    (l.mergeSort weightDescLE).Pairwise
      (fun a b => b.priority_weight ≤ a.priority_weight) := by
  have h : (l.mergeSort weightDescLE).Pairwise
      (fun a b => weightDescLE a b = true) :=
    List.sorted_mergeSort weightDescLE_trans weightDescLE_total l
  exact h.imp (fun hab => by simpa [weightDescLE] using hab)

/-- Stability of the weight-descending sort: the elements of any fixed
weight `w` appear in the sorted list exactly as they appear in the
input. -/
lemma mergeSort_weightDesc_stable (l : List Outcome) (w : Int) :
    (l.mergeSort weightDescLE).filter (fun o => decide (o.priority_weight = w)) =
      l.filter (fun o => decide (o.priority_weight = w)) := by
  have hpair : (l.filter (fun o => decide (o.priority_weight = w))).Pairwise
      (fun a b => weightDescLE a b = true) := by
    apply List.pairwise_of_forall_mem_list
    intro a ha b hb
    have ha2 : a.priority_weight = w := by
      simpa using (List.mem_filter.mp ha).2
    have hb2 : b.priority_weight = w := by
      simpa using (List.mem_filter.mp hb).2
    simp [weightDescLE, ha2, hb2]
  have hsub : List.Sublist (l.filter (fun o => decide (o.priority_weight = w)))
      (l.mergeSort weightDescLE) :=
    List.sublist_mergeSort weightDescLE_trans weightDescLE_total hpair
      (List.filter_sublist l)
  have hself : (l.filter (fun o => decide (o.priority_weight = w))).filter
      (fun o => decide (o.priority_weight = w)) =
      l.filter (fun o => decide (o.priority_weight = w)) := by
    rw [List.filter_filter]
    simp
  have hsub2 : List.Sublist (l.filter (fun o => decide (o.priority_weight = w)))
      ((l.mergeSort weightDescLE).filter (fun o => decide (o.priority_weight = w))) := by
    have := hsub.filter (fun o => decide (o.priority_weight = w))
    rwa [hself] at this
  have hperm : ((l.mergeSort weightDescLE).filter
      (fun o => decide (o.priority_weight = w))).Perm
      (l.filter (fun o => decide (o.priority_weight = w))) :=
    (List.mergeSort_perm l weightDescLE).filter _
  exact (hsub2.eq_of_length hperm.length_eq.symm).symm

/-- C6: `groupOutcomesByLevel` yields exactly the three buckets of
`GroupedOutcomes`; every outcome of the input appears (with its input
multiplicity) exactly in the bucket matching its structure level; each
bucket is sorted by priority weight descending; and the sort is stable —
for every weight `w`, the outcomes of weight `w` in a bucket are
exactly, and in the same order as, the input outcomes of that level and
weight. -/
theorem groupOutcomesByLevel_spec (activeOutcomes : List Outcome) :
    ((groupOutcomesByLevel activeOutcomes).role.Pairwise
        (fun a b => b.priority_weight ≤ a.priority_weight) ∧
     (groupOutcomesByLevel activeOutcomes).risk_level.Pairwise
        (fun a b => b.priority_weight ≤ a.priority_weight) ∧
     (groupOutcomesByLevel activeOutcomes).obligation.Pairwise
        (fun a b => b.priority_weight ≤ a.priority_weight)) ∧
    (∀ o : Outcome,
      (o ∈ (groupOutcomesByLevel activeOutcomes).role ↔
        o ∈ activeOutcomes ∧ o.structure_level = StructureLevel.role) ∧
      (o ∈ (groupOutcomesByLevel activeOutcomes).risk_level ↔
        o ∈ activeOutcomes ∧ o.structure_level = StructureLevel.risk_level) ∧
      (o ∈ (groupOutcomesByLevel activeOutcomes).obligation ↔
        o ∈ activeOutcomes ∧ o.structure_level = StructureLevel.obligation)) ∧
    (∀ w : Int,
      (groupOutcomesByLevel activeOutcomes).role.filter
          (fun o => decide (o.priority_weight = w)) =
        activeOutcomes.filter (fun o =>
          decide (o.structure_level = StructureLevel.role) &&
            decide (o.priority_weight = w)) ∧
      (groupOutcomesByLevel activeOutcomes).risk_level.filter
          (fun o => decide (o.priority_weight = w)) =
        activeOutcomes.filter (fun o =>
          decide (o.structure_level = StructureLevel.risk_level) &&
            decide (o.priority_weight = w)) ∧
      (groupOutcomesByLevel activeOutcomes).obligation.filter
          (fun o => decide (o.priority_weight = w)) =
        activeOutcomes.filter (fun o =>
          decide (o.structure_level = StructureLevel.obligation) &&
            decide (o.priority_weight = w))) := by
  have hrole : (groupOutcomesByLevel activeOutcomes).role =
      (activeOutcomes.filter
        (fun o => decide (o.structure_level = StructureLevel.role))).mergeSort
        weightDescLE := by
    simp only [groupOutcomesByLevel, groupFold_eq, List.nil_append]
  have hrisk : (groupOutcomesByLevel activeOutcomes).risk_level =
      (activeOutcomes.filter
        (fun o => decide (o.structure_level = StructureLevel.risk_level))).mergeSort
        weightDescLE := by
    simp only [groupOutcomesByLevel, groupFold_eq, List.nil_append]
  have hobl : (groupOutcomesByLevel activeOutcomes).obligation =
      (activeOutcomes.filter
        (fun o => decide (o.structure_level = StructureLevel.obligation))).mergeSort
        weightDescLE := by
    simp only [groupOutcomesByLevel, groupFold_eq, List.nil_append]
  refine ⟨⟨?_, ?_, ?_⟩, ?_, ?_⟩
  · rw [hrole]; exact mergeSort_weightDesc_pairwise _
  · rw [hrisk]; exact mergeSort_weightDesc_pairwise _
  · rw [hobl]; exact mergeSort_weightDesc_pairwise _
  · intro o
    refine ⟨?_, ?_, ?_⟩ <;>
      [rw [hrole]; rw [hrisk]; rw [hobl]] <;>
      simp [List.mem_filter]
  · intro w
    refine ⟨?_, ?_, ?_⟩ <;>
      [rw [hrole]; rw [hrisk]; rw [hobl]] <;>
      rw [mergeSort_weightDesc_stable, List.filter_filter] <;>
      congr 1 <;>
      funext o <;>
      rw [Bool.and_comm]

/-!
## C7 – C8: hub resolution
-/

/-- The hub loop threads its flag accumulator by appending: running with
accumulator `acc` yields the run from the empty accumulator, prefixed by
`acc`. -/
lemma processHubLoop_acc (nodes : String → Option DecisionNode) :
    ∀ (fuel : Nat) (cur : String) (flags : Flags) (acc : List SetFlag),
      processHubLoop nodes fuel cur flags acc =
        ((processHubLoop nodes fuel cur flags []).1,
         acc ++ (processHubLoop nodes fuel cur flags []).2) := by
  intro fuel
  induction fuel with
  | zero =>
    intro cur flags acc
    simp [processHubLoop]
  | succ m ih =>
    intro cur flags acc
    rw [processHubLoop, processHubLoop]
    cases hs : hubStep nodes cur flags with
    | none => simp
    | some r =>
      show processHubLoop nodes m r.nextNodeId (applyFlags flags r.flagsToSet)
          (acc ++ r.flagsToSet) =
        ((processHubLoop nodes m r.nextNodeId (applyFlags flags r.flagsToSet)
            ([] ++ r.flagsToSet)).1,
         acc ++ (processHubLoop nodes m r.nextNodeId (applyFlags flags r.flagsToSet)
            ([] ++ r.flagsToSet)).2)
      rw [ih r.nextNodeId (applyFlags flags r.flagsToSet) (acc ++ r.flagsToSet),
        ih r.nextNodeId (applyFlags flags r.flagsToSet) ([] ++ r.flagsToSet)]
      simp

/-- Unrolling the trace one step from a successful first hop: the state
after `i + 1` hops from `cur` is the state after `i` hops from the
successor, with the first hop's flags prepended to the accumulator. -/
lemma hubState_shift (nodes : String → Option DecisionNode) (cur : String)
    (flags : Flags) (r : RouteResult)
    (hstep : hubStep nodes cur flags = some r) :
    ∀ i, hubState nodes cur flags (i + 1) =
      ((hubState nodes r.nextNodeId (applyFlags flags r.flagsToSet) i).1,
       (hubState nodes r.nextNodeId (applyFlags flags r.flagsToSet) i).2.1,
       r.flagsToSet ++
         (hubState nodes r.nextNodeId (applyFlags flags r.flagsToSet) i).2.2) := by
  intro i
  induction i with
  | zero => simp [hubState, hstep]
  | succ n ih =>
    rw [show n + 1 + 1 = (n + 1) + 1 from rfl, hubState, ih, hubState]
    cases hubStep nodes
        (hubState nodes r.nextNodeId (applyFlags flags r.flagsToSet) n).1
        (hubState nodes r.nextNodeId (applyFlags flags r.flagsToSet) n).2.1 with
    | none => rfl
    | some r2 => simp

/-- The hub loop with fuel `fuel` follows the trace semantics for some
`n ≤ fuel` genuine hops, and stops at a natural stop (`hubStep = none`)
whenever it halts before exhausting its fuel. -/
lemma processHubLoop_trace (nodes : String → Option DecisionNode) :
    ∀ (fuel : Nat) (cur : String) (flags : Flags),
      ∃ n, n ≤ fuel ∧
        (∀ i < n, (hubStep nodes (hubState nodes cur flags i).1
            (hubState nodes cur flags i).2.1).isSome = true) ∧
        (n < fuel → hubStep nodes (hubState nodes cur flags n).1
            (hubState nodes cur flags n).2.1 = none) ∧
        processHubLoop nodes fuel cur flags [] =
          ((hubState nodes cur flags n).1, (hubState nodes cur flags n).2.2) := by
  intro fuel
  induction fuel with
  | zero =>
    intro cur flags
    refine ⟨0, Nat.le_refl 0, ?_, ?_, ?_⟩
    · intro i hi
      omega
    · intro h
      omega
    · simp [processHubLoop, hubState]
  | succ m ih =>
    intro cur flags
    cases hs : hubStep nodes cur flags with
    | none =>
      refine ⟨0, Nat.zero_le _, ?_, ?_, ?_⟩
      · intro i hi
        omega
      · intro _
        exact hs
      · rw [processHubLoop, hs]
        rfl
    | some r =>
      obtain ⟨n, hn, hsome, hnone, heq⟩ := ih r.nextNodeId (applyFlags flags r.flagsToSet)
      refine ⟨n + 1, by omega, ?_, ?_, ?_⟩
      · intro i hi
        cases i with
        | zero => simp [hubState, hs]
        | succ j =>
          rw [hubState_shift nodes cur flags r hs j]
          exact hsome j (by omega)
      · intro hlt
        rw [hubState_shift nodes cur flags r hs n]
        exact hnone (by omega)
      · rw [processHubLoop, hs, hubState_shift nodes cur flags r hs n]
        show processHubLoop nodes m r.nextNodeId (applyFlags flags r.flagsToSet)
            ([] ++ r.flagsToSet) =
          ((hubState nodes r.nextNodeId (applyFlags flags r.flagsToSet) n).1,
           r.flagsToSet ++
             (hubState nodes r.nextNodeId (applyFlags flags r.flagsToSet) n).2.2)
        rw [processHubLoop_acc nodes m r.nextNodeId (applyFlags flags r.flagsToSet)
            ([] ++ r.flagsToSet), heq]
        simp

/-- C7: `processHubNodes` terminates within at most 50 internal hops:
there is an `n ≤ 50` such that the result is exactly the trace state
after `n` genuine hops — where each hop's flags are merged into the
working copy (`applyFlags` inside `hubState`), so later hops observe
earlier hops' flags, and appended to the accumulated list — and, if the
loop halted before the 50-hop cap, it did so because a stop condition
(terminal id `"END"`, missing node, non-hub node, or routing failure —
`hubStep = none`) was reached. -/
theorem processHubNodes_trace_spec (nodes : String → Option DecisionNode)
    (startNodeId : String) (flags : Flags) :
    ∃ n, n ≤ 50 ∧
      (∀ i < n, (hubStep nodes (hubState nodes startNodeId flags i).1
          (hubState nodes startNodeId flags i).2.1).isSome = true) ∧
      (n < 50 → hubStep nodes (hubState nodes startNodeId flags n).1
          (hubState nodes startNodeId flags n).2.1 = none) ∧
      processHubNodes nodes startNodeId flags =
        ((hubState nodes startNodeId flags n).1,
         (hubState nodes startNodeId flags n).2.2) :=
  processHubLoop_trace nodes 50 startNodeId flags

/-- C8 (amended): when the hub chain is still active at every one of the
50 permitted hops, `processHubNodes` silently returns the node id and
accumulated flags of the 50-hop trace state; its return type
(`String × List SetFlag`) carries no error channel, so nothing is
signaled to the caller. -/
theorem processHubNodes_cap_silent (nodes : String → Option DecisionNode)
    (startNodeId : String) (flags : Flags)
    (h : ∀ i < 50, (hubStep nodes (hubState nodes startNodeId flags i).1
        (hubState nodes startNodeId flags i).2.1).isSome = true) :
    processHubNodes nodes startNodeId flags =
      ((hubState nodes startNodeId flags 50).1,
       (hubState nodes startNodeId flags 50).2.2) := by
  obtain ⟨n, hn, hsome, hnone, heq⟩ := processHubLoop_trace nodes 50 startNodeId flags
  rcases Nat.lt_or_ge n 50 with hlt | hge
  · have habs := h n hlt
    rw [hnone hlt] at habs
    simp at habs
  · have heq50 : n = 50 := by omega
    subst heq50
    exact heq

/-- A one-node cyclic decision tree: the hub node `"hub_a"` routes back
to itself unconditionally.  Used to exercise the iteration cap. -/
def cycNodes : String → Option DecisionNode := fun s =>
  if s = "hub_a" then some ⟨"hub_a", NodeType.hub, [⟨none, "hub_a", none⟩], none⟩
  else none

/-- On the one-node cycle the trace state is constant: every hop returns
to `"hub_a"` with unchanged flags and an empty accumulator. -/
lemma cycNodes_state (i : Nat) :
    hubState cycNodes "hub_a" (fun _ => none) i =
      ("hub_a", fun _ => none, []) := by
  induction i with
  | zero => rfl
  | succ n ih =>
    rw [hubState, ih]
    rfl

/-- Witness for C8 (amended) on the one-node cycle: every one of the 50
hops is a genuine hop, and `processHubNodes` returns the 50-hop trace
state. -/
theorem processHubNodes_cap_silent_witness :
    (∀ i < 50, (hubStep cycNodes
        (hubState cycNodes "hub_a" (fun _ => none) i).1
        (hubState cycNodes "hub_a" (fun _ => none) i).2.1).isSome = true) ∧
    processHubNodes cycNodes "hub_a" (fun _ => none) =
      ((hubState cycNodes "hub_a" (fun _ => none) 50).1,
       (hubState cycNodes "hub_a" (fun _ => none) 50).2.2) := by
  have h : ∀ i < 50, (hubStep cycNodes
      (hubState cycNodes "hub_a" (fun _ => none) i).1
      (hubState cycNodes "hub_a" (fun _ => none) i).2.1).isSome = true := by
    intro i _
    rw [cycNodes_state i]
    rfl
  exact ⟨h, processHubNodes_cap_silent cycNodes "hub_a" (fun _ => none) h⟩

/-- Counterexample to C8 as stated: on the one-node cycle the chain is
still active at the returned node (another hop would be taken), yet
`processHubNodes` returns just the last-reached node id and accumulated
flags — a silent stop, with no anomaly reported to the caller. -/
theorem processHubNodes_cap_not_reported :
    (hubStep cycNodes "hub_a" (fun _ => none)).isSome = true ∧
    processHubNodes cycNodes "hub_a" (fun _ => none) = ("hub_a", []) := by
  constructor
  · rfl
  · decide
